import Mathlib

/-!
Verification of the sbtio transport bridge.

The development shallowly embeds the message-framing parser
(`LspMessageReader` in `src/sbt.rs`), the connection dispatch
(`Conn::connect` in `src/conn.rs`) and the server-address discovery
(`find_sbt_server_addr` in `src/sbt.rs`).

Bytes are modelled as `Nat`, the underlying `Bytes<R>` iterator as a list of
read events (one per `next()` call): either a byte, or an I/O error of some
kind; an exhausted list models end-of-stream (`None`).
-/

/-- The subset of `std::io::ErrorKind` values relevant to this program. -/
inductive ErrKind where
  | notFound
  | invalidData
  | invalidInput
  | interrupted
  | unexpectedEof
  | other
deriving DecidableEq

/-- One outcome of `self.inner.next()` on the `Bytes<R>` iterator:
`Some(Ok(b))` is `byte b`, `Some(Err(e))` is `ioError e.kind()`;
end of the list models `None` (end of stream). -/
inductive ReadEvent where
  | byte (b : Nat)
  | ioError (k : ErrKind)
deriving DecidableEq

/-- An error-free stream delivering exactly the bytes `s`. -/
def byteEvents (s : List Nat) : List ReadEvent :=
  s.map ReadEvent.byte

/-- The same stream with all transient-interruption events removed. -/
def stripInterrupts (es : List ReadEvent) : List ReadEvent :=
  es.filter (fun e => e ≠ ReadEvent.ioError ErrKind.interrupted)

/-! ### Model of `serde_json::from_slice::<Value>`

`parse_message` validates the accumulated body with
`from_slice::<Value>(&self.message[..])`.  serde_json is an external
dependency; the validator below models its structural acceptance: one JSON
value (object, array, string, number, `true`/`false`/`null`), with
whitespace where JSON allows it, and nothing but trailing whitespace after
the value. -/

/-- JSON whitespace bytes: space, tab, line feed, carriage return. -/
def isWsByte (b : Nat) : Bool :=
  b == 32 || b == 9 || b == 10 || b == 13

def skipWs : List Nat → List Nat
  | [] => []
  | b :: r => if isWsByte b then skipWs r else b :: r

def isDigit (b : Nat) : Bool := 48 ≤ b && b ≤ 57

def isHexDigit (b : Nat) : Bool :=
  isDigit b || (65 ≤ b && b ≤ 70) || (97 ≤ b && b ≤ 102)

/-- Consume the remainder of a JSON string literal (the opening quote already
consumed), handling escape sequences; returns the bytes after the closing
quote. -/
def parseStringRest : List Nat → Option (List Nat)
  | [] => none
  | b :: r =>
    if b == 34 then some r
    else if b == 92 then
      match r with
      | [] => none
      | e :: r2 =>
        if e == 34 || e == 92 || e == 47 || e == 98 || e == 102 ||
            e == 110 || e == 114 || e == 116 then
          parseStringRest r2
        else if e == 117 then
          match r2 with
          | h1 :: h2 :: h3 :: h4 :: r3 =>
            if isHexDigit h1 && isHexDigit h2 && isHexDigit h3 && isHexDigit h4 then
              parseStringRest r3
            else none
          | _ => none
        else none
    else if b < 32 then none
    else parseStringRest r

/-- Drop a leading (possibly empty) run of decimal digits. -/
def dropDigits : List Nat → List Nat
  | [] => []
  | b :: r => if isDigit b then dropDigits r else b :: r

/-- Require at least one digit, then drop the rest of the digit run. -/
def digitsRest : List Nat → Option (List Nat)
  | [] => none
  | b :: r => if isDigit b then some (dropDigits r) else none

/-- Optional fraction and exponent parts of a JSON number. -/
def parseFracExp (l : List Nat) : Option (List Nat) :=
  let afterFrac :=
    match l with
    | 46 :: r => digitsRest r
    | _ => some l
  match afterFrac with
  | none => none
  | some l2 =>
    match l2 with
    | 101 :: 43 :: r => digitsRest r
    | 101 :: 45 :: r => digitsRest r
    | 101 :: r => digitsRest r
    | 69 :: 43 :: r => digitsRest r
    | 69 :: 45 :: r => digitsRest r
    | 69 :: r => digitsRest r
    | _ => some l2

/-- The remainder of a JSON number after an optional leading minus sign:
either a single `0`, or a nonzero digit followed by more digits, then
fraction/exponent. -/
def parseNumRest : List Nat → Option (List Nat)
  | [] => none
  | b :: r =>
    if b == 48 then parseFracExp r
    else if isDigit b then parseFracExp (dropDigits r)
    else none

/-- Expect the exact bytes `lit` at the head of the input. -/
def expectLit : List Nat → List Nat → Option (List Nat)
  | [], l => some l
  | _ :: _, [] => none
  | c :: cs, b :: r => if b == c then expectLit cs r else none

mutual

/-- One JSON value (leading whitespace allowed); fuelled recursion. -/
def parseValue : Nat → List Nat → Option (List Nat)
  | 0, _ => none
  | f + 1, l =>
    match skipWs l with
    | [] => none
    | b :: r =>
      if b == 34 then parseStringRest r
      else if b == 123 then parseObjRest f (skipWs r)
      else if b == 91 then parseArrRest f (skipWs r)
      else if b == 116 then expectLit [114, 117, 101] r
      else if b == 102 then expectLit [97, 108, 115, 101] r
      else if b == 110 then expectLit [117, 108, 108] r
      else if b == 45 then parseNumRest r
      else if isDigit b then parseNumRest (b :: r)
      else none

/-- Object body after `{` (whitespace skipped): `}` or a member list. -/
def parseObjRest : Nat → List Nat → Option (List Nat)
  | 0, _ => none
  | f + 1, l =>
    match l with
    | 125 :: r => some r
    | _ => parseMember f l

/-- One `"key" : value` member, then `,` (more members) or `}`. -/
def parseMember : Nat → List Nat → Option (List Nat)
  | 0, _ => none
  | f + 1, l =>
    match l with
    | 34 :: r =>
      match parseStringRest r with
      | none => none
      | some r2 =>
        match skipWs r2 with
        | 58 :: r3 =>
          match parseValue f r3 with
          | none => none
          | some r4 =>
            match skipWs r4 with
            | 44 :: r5 => parseMember f (skipWs r5)
            | 125 :: r5 => some r5
            | _ => none
        | _ => none
    | _ => none

/-- Array body after `[` (whitespace skipped): `]` or an element list. -/
def parseArrRest : Nat → List Nat → Option (List Nat)
  | 0, _ => none
  | f + 1, l =>
    match l with
    | 93 :: r => some r
    | _ => parseElement f l

/-- One array element, then `,` (more elements) or `]`. -/
def parseElement : Nat → List Nat → Option (List Nat)
  | 0, _ => none
  | f + 1, l =>
    match parseValue f l with
    | none => none
    | some r =>
      match skipWs r with
      | 44 :: r2 => parseElement f (skipWs r2)
      | 93 :: r2 => some r2
      | _ => none

end

/-- Model of `serde_json::from_slice::<Value>(l).is_ok()`: one JSON value
followed by nothing but whitespace.  The fuel `3 * l.length + 3` dominates
the recursion depth, which consumes at least one byte every three nested
calls. -/
def jsonValid (l : List Nat) : Bool :=
  match parseValue (3 * l.length + 3) l with
  | none => false
  | some r => (skipWs r).isEmpty

/-! ### The message framer (`LspMessageReader` in `src/sbt.rs`)

`match_byte` maps `None` to an `UnexpectedEof` error, skips
`ErrorKind::Interrupted` read errors (the loop `continue`s), and propagates
any other read error; `Some(Ok(b))` yields the byte.  This behaviour is
inlined into each loop below, exactly as the `None => continue` /
early-return control flow of the source.  The reader's per-call state
(`headers` and `message` buffers are cleared at the start of
`read_message`) is passed as accumulator arguments; the iterator state is
the returned remainder of the event list. -/

deriving instance DecidableEq for Except

/-- A complete frame: `LspMessage { headers, message }` from `src/sbt.rs`. -/
structure LspMessage where
  headers : List Nat
  message : List Nat
deriving DecidableEq

/-- `LspMessageReader::parse_headers`: append each byte to the header buffer
until its last four bytes are `\r\n\r\n`; end of stream is `UnexpectedEof`,
interrupted reads are retried, other read errors propagate. -/
def parse_headers : List ReadEvent → List Nat → Except ErrKind (List Nat × List ReadEvent)
  | [], _ => .error .unexpectedEof
  | .ioError k :: rest, headers =>
    if k = ErrKind.interrupted then parse_headers rest headers else .error k
  | .byte b :: rest, headers =>
    let headers' := headers ++ [b]
    if 4 ≤ headers'.length ∧ headers'.drop (headers'.length - 4) = [13, 10, 13, 10] then
      .ok (headers', rest)
    else parse_headers rest headers'

/-- `LspMessageReader::parse_string`: append bytes to the message buffer
until an unescaped quote; a backslash escapes the following byte. -/
def parse_string : List ReadEvent → List Nat → Bool → Except ErrKind (List Nat × List ReadEvent)
  | [], _, _ => .error .unexpectedEof
  | .ioError k :: rest, msg, escape =>
    if k = ErrKind.interrupted then parse_string rest msg escape else .error k
  | .byte b :: rest, msg, escape =>
    if escape then parse_string rest (msg ++ [b]) false
    else if b = 92 then parse_string rest (msg ++ [b]) true
    else if b = 34 then .ok (msg ++ [b], rest)
    else parse_string rest (msg ++ [b]) escape

/-- Whether `parse_message` is in its own loop or inside the nested
`parse_string` loop (with its `escape` flag). -/
inductive BodyMode where
  | scan
  | quoted (escape : Bool)
deriving DecidableEq

/-- `LspMessageReader::parse_message`, with the nested `parse_string` loop
flattened into the `quoted` mode (the lemma `parse_messageGo_quoted` below
recovers the source's call structure).  In `scan` mode each byte is pushed
and classified: `{` increments and `}` decrements `brace_count`, `"` enters
the quoted section, any other byte `continue`s the loop; after a
`{`/`}`/closing-`"` classification, if `brace_count > 0` the loop
continues, otherwise the buffer is validated — success returns it,
failure is `InvalidData`. -/
def parse_messageGo : List ReadEvent → List Nat → Int → BodyMode → Except ErrKind (List Nat × List ReadEvent)
  | [], _, _, _ => .error .unexpectedEof
  | .ioError k :: rest, msg, bc, mode =>
    if k = ErrKind.interrupted then parse_messageGo rest msg bc mode else .error k
  | .byte b :: rest, msg, bc, mode =>
    match mode with
    | .quoted escape =>
      if escape then parse_messageGo rest (msg ++ [b]) bc (.quoted false)
      else if b = 92 then parse_messageGo rest (msg ++ [b]) bc (.quoted true)
      else if b = 34 then
        if bc > 0 then parse_messageGo rest (msg ++ [b]) bc .scan
        else if jsonValid (msg ++ [b]) then .ok (msg ++ [b], rest)
        else .error .invalidData
      else parse_messageGo rest (msg ++ [b]) bc (.quoted escape)
    | .scan =>
      if b = 123 then
        if bc + 1 > 0 then parse_messageGo rest (msg ++ [b]) (bc + 1) .scan
        else if jsonValid (msg ++ [b]) then .ok (msg ++ [b], rest)
        else .error .invalidData
      else if b = 125 then
        if bc - 1 > 0 then parse_messageGo rest (msg ++ [b]) (bc - 1) .scan
        else if jsonValid (msg ++ [b]) then .ok (msg ++ [b], rest)
        else .error .invalidData
      else if b = 34 then parse_messageGo rest (msg ++ [b]) bc (.quoted false)
      else parse_messageGo rest (msg ++ [b]) bc .scan

/-- `parse_message` starts with an empty message buffer and `brace_count = 0`. -/
def parse_message (es : List ReadEvent) : Except ErrKind (List Nat × List ReadEvent) :=
  parse_messageGo es [] 0 .scan

/-- `LspMessageReader::read_message`: clear both buffers, parse the header
block, then the body; the remaining events model the iterator state kept
for the next call. -/
def read_message (es : List ReadEvent) : Except ErrKind (LspMessage × List ReadEvent) :=
  match parse_headers es [] with
  | .error k => .error k
  | .ok (hs, rest) =>
    match parse_message rest with
    | .error k => .error k
    | .ok (msg, rest2) => .ok (⟨hs, msg⟩, rest2)

/-- Repeated `read_message` calls, as in `copy_messages` in `src/main.rs`:
up to `n` calls, stopping at the first error; returns the frames produced,
in order, and the final error if one occurred. -/
def runFrames : Nat → List ReadEvent → List LspMessage × Option ErrKind
  | 0, _ => ([], none)
  | n + 1, es =>
    match read_message es with
    | .error k => ([], some k)
    | .ok (m, rest) =>
      let p := runFrames n rest
      (m :: p.1, p.2)

/-! ### Connection dispatch (`Conn::connect` in `src/conn.rs`)

The `url` crate, DNS resolution and the OS socket calls are external; they
enter the model as oracles (`parseUrl` for `Url::parse`, and `NetOracle`
for `to_socket_addrs`, `TcpStream::connect`, `UnixStream::connect`).  The
dispatch logic itself — scheme match, `InvalidInput` on a parse failure, an
empty resolution or an unknown scheme — is the source's.  Alongside the
result, the model returns the list of connection attempts actually made, so
that "no connection was attempted" is expressible. -/

/-- The parts of a parsed URL that `Conn::connect` consults. -/
structure ParsedUrl where
  scheme : String
  path : String
deriving DecidableEq

/-- `enum Conn { Tcp(..), Unix(..) }`, each stream identified by the
address or path it was opened on. -/
inductive Conn where
  | tcp (addr : String)
  | unix (path : String)
deriving DecidableEq

/-- A connection attempt made against the OS. -/
inductive Attempt where
  | tcp (addr : String)
  | unix (path : String)
deriving DecidableEq

/-- Oracles for address resolution and socket connection outcomes. -/
structure NetOracle where
  resolveAddrs : ParsedUrl → Except ErrKind (List String)
  tcpConnect : String → Except ErrKind Unit
  unixConnect : String → Except ErrKind Unit

/-- `Conn::connect`: parse the URL (`InvalidInput` on failure), then match
the scheme: `"tcp"` resolves the address (the first resolved address is
used; none is `InvalidInput`) and attempts a TCP connection; `"local"`
attempts a Unix-socket connection at the URL's path; any other scheme is
`InvalidInput` with no attempt made. -/
def Conn.connect (parseUrl : String → Option ParsedUrl) (o : NetOracle) (s : String) :
    Except ErrKind Conn × List Attempt :=
  match parseUrl s with
  | none => (.error .invalidInput, [])
  | some u =>
    if u.scheme = "tcp" then
      match o.resolveAddrs u with
      | .error k => (.error k, [])
      | .ok addrs =>
        match addrs.head? with
        | none => (.error .invalidInput, [])
        | some a =>
          match o.tcpConnect a with
          | .ok _ => (.ok (.tcp a), [.tcp a])
          | .error k => (.error k, [.tcp a])
    else if u.scheme = "local" then
      match o.unixConnect u.path with
      | .ok _ => (.ok (.unix u.path), [.unix u.path])
      | .error k => (.error k, [.unix u.path])
    else (.error .invalidInput, [])

/-! ### Server-address discovery (`find_sbt_server_addr` in `src/sbt.rs`)

The filesystem is external; it enters as an oracle: the ancestor list of
the working directory (`Path::ancestors`), an existence test, and the
decoded contents of a file — `.ok (some d)` when the JSON decodes to the
serde `Active` enum, `.ok none` when it is present but not one of the two
recognized shapes, `.error k` when opening the file fails. -/

/-- The serde `Active` enum: `{ uri }` or `{ uri, tokenfilePath, tokenfileUri }`. -/
inductive Active where
  | onlyUri (uri : String)
  | withToken (uri tokenfilePath tokenfileUri : String)
deriving DecidableEq

/-- Filesystem oracle; paths are lists of components. -/
structure FsOracle where
  ancestors : List (List String)
  pathExists : List String → Bool
  readActive : List String → Except ErrKind (Option Active)

/-- `path.join("project").join("target").join("active.json")`. -/
def activePath (p : List String) : List String :=
  p ++ ["project", "target", "active.json"]

/-- `Active::to_uri`: both shapes return the `uri` field. -/
def Active.to_uri : Active → String
  | .onlyUri uri => uri
  | .withToken uri _ _ => uri

/-- `parse_active`: open and decode the file; a decode failure is mapped to
`InvalidData`, an open failure propagates. -/
def parse_active (fs : FsOracle) (p : List String) : Except ErrKind Active :=
  match fs.readActive p with
  | .error k => .error k
  | .ok none => .error .invalidData
  | .ok (some d) => .ok d

/-- The `for path in Path::ancestors(&cwd)` loop: at the first ancestor
whose `active.json` exists, return `parse_active(..).map(Active::to_uri)`. -/
def findFrom (fs : FsOracle) : List (List String) → Except ErrKind String
  | [] => .error .notFound
  | p :: rest =>
    if fs.pathExists (activePath p) then (parse_active fs (activePath p)).map Active.to_uri
    else findFrom fs rest

/-- `find_sbt_server_addr`: search every ancestor of the working directory;
`NotFound` when none has the file. -/
def find_sbt_server_addr (fs : FsOracle) : Except ErrKind String :=
  findFrom fs fs.ancestors

/-! ### Sample data used by concrete scenarios -/

/-- `"Header: x\r\n\r\n"` as bytes. -/
def hdr1 : List Nat := [72, 101, 97, 100, 101, 114, 58, 32, 120, 13, 10, 13, 10]

/-- The body bytes of the first sample message. -/
def body1 : List Nat := [123, 34, 105, 100, 34, 58, 49, 125]

/-- `"Header: y\r\n\r\n"` as bytes. -/
def hdr2 : List Nat := [72, 101, 97, 100, 101, 114, 58, 32, 121, 13, 10, 13, 10]

/-- The body bytes of the second sample message. -/
def body2 : List Nat := [123, 34, 105, 100, 34, 58, 50, 125]

/-- The two sample messages concatenated into one byte stream. -/
def msgStream : List Nat := hdr1 ++ body1 ++ hdr2 ++ body2

/-- The nine-byte body whose value contains a close-brace inside a quoted
section. -/
def body9 : List Nat := [123, 34, 97, 34, 58, 34, 125, 34, 125]

/-- The blank-line terminator of a header block: `\r\n\r\n`. -/
def blankTerm : List Nat := [13, 10, 13, 10]

/-- Strip interruption events from the remainder carried in a parse result
(used to compare a run against the same run on a stripped stream). -/
def stripResult (r : Except ErrKind (List Nat × List ReadEvent)) :
    Except ErrKind (List Nat × List ReadEvent) :=
  match r with
  | .ok (a, rest) => .ok (a, stripInterrupts rest)
  | .error k => .error k

/-- A network oracle on which every operation succeeds vacuously. -/
def trivialNetOracle : NetOracle :=
  ⟨fun _ => .ok [], fun _ => .ok (), fun _ => .ok ()⟩

/-- A sample filesystem: two ancestors, the first of which holds an
`active.json` decoding to the single-field shape. -/
def sampleFs : FsOracle :=
  ⟨[["a"], []],
   fun p => decide (p = activePath ["a"]),
   fun p => if p = activePath ["a"] then .ok (some (.onlyUri "tcp://127.0.0.1:1"))
            else .ok none⟩

/-! ### Helper lemmas -/

theorem appendSingleton_inj {α : Type} {x y : List α} {a c : α}
    (h : x ++ [a] = y ++ [c]) : x = y ∧ a = c := by
  have hl : x.length = y.length := by
    have := congrArg List.length h
    simpa using this
  have h2 := List.append_inj h (by simpa using hl)
  exact ⟨h2.1, by simpa using h2.2⟩

theorem parse_headers_ok_ext (es : List ReadEvent) :
    ∀ (es' : List ReadEvent) (acc h : List Nat) (r : List ReadEvent),
    parse_headers es acc = .ok (h, r) →
    parse_headers (es ++ es') acc = .ok (h, r ++ es') := by
  induction es with
  | nil => intro es' acc h r hE; simp [parse_headers] at hE
  | cons e rest ih =>
    intro es' acc h r hE
    cases e with
    | ioError k =>
      simp only [parse_headers, List.cons_append] at hE ⊢
      by_cases hk : k = ErrKind.interrupted
      · rw [if_pos hk] at hE ⊢
        exact ih es' acc h r hE
      · rw [if_neg hk] at hE
        exact absurd hE (by simp)
    | byte b =>
      simp only [parse_headers, List.cons_append] at hE ⊢
      by_cases hc : 4 ≤ (acc ++ [b]).length ∧
          (acc ++ [b]).drop ((acc ++ [b]).length - 4) = [13, 10, 13, 10]
      · rw [if_pos hc] at hE ⊢
        simp only [Except.ok.injEq, Prod.mk.injEq] at hE
        obtain ⟨h1, h2⟩ := hE
        subst h1; subst h2; rfl
      · rw [if_neg hc] at hE ⊢
        exact ih es' (acc ++ [b]) h r hE

theorem parse_headers_err_ext (es : List ReadEvent) :
    ∀ (es' : List ReadEvent) (acc : List Nat) (k : ErrKind),
    parse_headers es acc = .error k → k ≠ ErrKind.unexpectedEof →
    parse_headers (es ++ es') acc = .error k := by
  induction es with
  | nil =>
    intro es' acc k hE hk
    simp only [parse_headers] at hE
    cases hE
    exact absurd rfl hk
  | cons e rest ih =>
    intro es' acc k hE hk
    cases e with
    | ioError k' =>
      simp only [parse_headers, List.cons_append] at hE ⊢
      by_cases hki : k' = ErrKind.interrupted
      · rw [if_pos hki] at hE ⊢
        exact ih es' acc k hE hk
      · rw [if_neg hki] at hE ⊢
        exact hE
    | byte b =>
      simp only [parse_headers, List.cons_append] at hE ⊢
      by_cases hc : 4 ≤ (acc ++ [b]).length ∧
          (acc ++ [b]).drop ((acc ++ [b]).length - 4) = [13, 10, 13, 10]
      · rw [if_pos hc] at hE
        exact absurd hE (by simp)
      · rw [if_neg hc] at hE ⊢
        exact ih es' (acc ++ [b]) k hE hk

theorem parse_headers_no_interrupt (es : List ReadEvent) :
    ∀ (acc : List Nat) (k : ErrKind),
    parse_headers es acc = .error k → k ≠ ErrKind.interrupted := by
  induction es with
  | nil =>
    intro acc k hE
    simp only [parse_headers] at hE
    cases hE
    simp
  | cons e rest ih =>
    intro acc k hE
    cases e with
    | ioError k' =>
      simp only [parse_headers] at hE
      by_cases hki : k' = ErrKind.interrupted
      · rw [if_pos hki] at hE
        exact ih acc k hE
      · rw [if_neg hki] at hE
        cases hE
        exact hki
    | byte b =>
      simp only [parse_headers] at hE
      by_cases hc : 4 ≤ (acc ++ [b]).length ∧
          (acc ++ [b]).drop ((acc ++ [b]).length - 4) = [13, 10, 13, 10]
      · rw [if_pos hc] at hE
        exact absurd hE (by simp)
      · rw [if_neg hc] at hE
        exact ih _ k hE

theorem pm_step (e : ReadEvent) (msg : List Nat) (bc : Int) (mode : BodyMode) :
    (∃ msg' bc' mode', (0 ≤ bc → 0 ≤ bc') ∧
      ∀ rest, parse_messageGo (e :: rest) msg bc mode = parse_messageGo rest msg' bc' mode') ∨
    (∃ m, jsonValid m = true ∧
      (0 ≤ bc → (m.getLast? = some 125 ∨ m.getLast? = some 34)) ∧
      ∀ rest, parse_messageGo (e :: rest) msg bc mode = .ok (m, rest)) ∨
    (∃ k, k ≠ ErrKind.interrupted ∧
      ∀ rest, parse_messageGo (e :: rest) msg bc mode = .error k) := by
  cases e with
  | ioError k =>
    by_cases hk : k = ErrKind.interrupted
    · exact Or.inl ⟨msg, bc, mode, fun h => h,
        fun rest => by simp [parse_messageGo, hk]⟩
    · exact Or.inr (Or.inr ⟨k, hk, fun rest => by simp [parse_messageGo, hk]⟩)
  | byte b =>
    cases mode with
    | quoted esc =>
      cases esc with
      | true =>
        exact Or.inl ⟨msg ++ [b], bc, .quoted false, fun h => h,
          fun rest => by simp [parse_messageGo]⟩
      | false =>
        by_cases h92 : b = 92
        · exact Or.inl ⟨msg ++ [b], bc, .quoted true, fun h => h,
            fun rest => by simp [parse_messageGo, h92]⟩
        · by_cases h34 : b = 34
          · by_cases hbc : bc > 0
            · exact Or.inl ⟨msg ++ [b], bc, .scan, fun h => h,
                fun rest => by simp [parse_messageGo, h92, h34, hbc]⟩
            · by_cases hv : jsonValid (msg ++ [b]) = true
              · exact Or.inr (Or.inl ⟨msg ++ [b], hv,
                  fun _ => Or.inr (by simp [h34]),
                  fun rest => by simp [parse_messageGo, h92, h34, hbc, h34 ▸ hv]⟩)
              · exact Or.inr (Or.inr ⟨ErrKind.invalidData, by simp,
                  fun rest => by simp [parse_messageGo, h92, h34, hbc, h34 ▸ hv]⟩)
          · exact Or.inl ⟨msg ++ [b], bc, .quoted false, fun h => h,
              fun rest => by simp [parse_messageGo, h92, h34]⟩
    | scan =>
      by_cases h123 : b = 123
      · by_cases hbc : bc + 1 > 0
        · exact Or.inl ⟨msg ++ [b], bc + 1, .scan, fun _ => by omega,
            fun rest => by simp [parse_messageGo, h123, hbc]⟩
        · by_cases hv : jsonValid (msg ++ [b]) = true
          · exact Or.inr (Or.inl ⟨msg ++ [b], hv,
              fun h0 => absurd (by omega : bc + 1 > 0) hbc,
              fun rest => by simp [parse_messageGo, h123, hbc, h123 ▸ hv]⟩)
          · exact Or.inr (Or.inr ⟨ErrKind.invalidData, by simp,
              fun rest => by simp [parse_messageGo, h123, hbc, h123 ▸ hv]⟩)
      · by_cases h125 : b = 125
        · by_cases hbc : bc - 1 > 0
          · exact Or.inl ⟨msg ++ [b], bc - 1, .scan, fun _ => by omega,
              fun rest => by simp [parse_messageGo, h123, h125, hbc]⟩
          · by_cases hv : jsonValid (msg ++ [b]) = true
            · exact Or.inr (Or.inl ⟨msg ++ [b], hv,
                fun _ => Or.inl (by simp [h125]),
                fun rest => by simp [parse_messageGo, h123, h125, hbc, h125 ▸ hv]⟩)
            · exact Or.inr (Or.inr ⟨ErrKind.invalidData, by simp,
                fun rest => by simp [parse_messageGo, h123, h125, hbc, h125 ▸ hv]⟩)
        · by_cases h34 : b = 34
          · exact Or.inl ⟨msg ++ [b], bc, .quoted false, fun h => h,
              fun rest => by simp [parse_messageGo, h123, h125, h34]⟩
          · exact Or.inl ⟨msg ++ [b], bc, .scan, fun h => h,
              fun rest => by simp [parse_messageGo, h123, h125, h34]⟩

theorem pm_ok_ext (es : List ReadEvent) :
    ∀ (es' : List ReadEvent) (msg m : List Nat) (bc : Int) (mode : BodyMode) (r : List ReadEvent),
    parse_messageGo es msg bc mode = .ok (m, r) →
    parse_messageGo (es ++ es') msg bc mode = .ok (m, r ++ es') := by
  induction es with
  | nil => intro es' msg m bc mode r hE; simp [parse_messageGo] at hE
  | cons e rest ih =>
    intro es' msg m bc mode r hE
    rcases pm_step e msg bc mode with ⟨msg', bc', mode', _, hstep⟩ |
      ⟨m', _, _, hstep⟩ | ⟨k, _, hstep⟩
    · rw [hstep] at hE
      rw [List.cons_append, hstep]
      exact ih es' msg' m bc' mode' r hE
    · rw [hstep] at hE
      rw [List.cons_append, hstep]
      simp only [Except.ok.injEq, Prod.mk.injEq] at hE
      obtain ⟨h1, h2⟩ := hE
      subst h1; subst h2; rfl
    · rw [hstep] at hE
      exact absurd hE (by simp)

theorem pm_err_ext (es : List ReadEvent) :
    ∀ (es' : List ReadEvent) (msg : List Nat) (bc : Int) (mode : BodyMode) (k : ErrKind),
    parse_messageGo es msg bc mode = .error k → k ≠ ErrKind.unexpectedEof →
    parse_messageGo (es ++ es') msg bc mode = .error k := by
  induction es with
  | nil =>
    intro es' msg bc mode k hE hk
    simp only [parse_messageGo, Except.error.injEq] at hE
    exact absurd hE.symm hk
  | cons e rest ih =>
    intro es' msg bc mode k hE hk
    rcases pm_step e msg bc mode with ⟨msg', bc', mode', _, hstep⟩ |
      ⟨m', _, _, hstep⟩ | ⟨k', _, hstep⟩
    · rw [hstep] at hE
      rw [List.cons_append, hstep]
      exact ih es' msg' bc' mode' k hE hk
    · rw [hstep] at hE
      exact absurd hE (by simp)
    · rw [hstep] at hE
      simp only [Except.error.injEq] at hE
      subst hE
      rw [List.cons_append, hstep]

theorem pm_ok_valid (es : List ReadEvent) :
    ∀ (msg m : List Nat) (bc : Int) (mode : BodyMode) (r : List ReadEvent),
    parse_messageGo es msg bc mode = .ok (m, r) → jsonValid m = true := by
  induction es with
  | nil => intro msg m bc mode r hE; simp [parse_messageGo] at hE
  | cons e rest ih =>
    intro msg m bc mode r hE
    rcases pm_step e msg bc mode with ⟨msg', bc', mode', _, hstep⟩ |
      ⟨m', hv, _, hstep⟩ | ⟨k, _, hstep⟩
    · rw [hstep] at hE
      exact ih msg' m bc' mode' r hE
    · rw [hstep] at hE
      simp only [Except.ok.injEq, Prod.mk.injEq] at hE
      exact hE.1 ▸ hv
    · rw [hstep] at hE
      exact absurd hE (by simp)

theorem pm_ok_last (es : List ReadEvent) :
    ∀ (msg m : List Nat) (bc : Int) (mode : BodyMode) (r : List ReadEvent),
    0 ≤ bc → parse_messageGo es msg bc mode = .ok (m, r) →
    m.getLast? = some 125 ∨ m.getLast? = some 34 := by
  induction es with
  | nil => intro msg m bc mode r _ hE; simp [parse_messageGo] at hE
  | cons e rest ih =>
    intro msg m bc mode r hbc hE
    rcases pm_step e msg bc mode with ⟨msg', bc', mode', hmono, hstep⟩ |
      ⟨m', _, hlast, hstep⟩ | ⟨k, _, hstep⟩
    · rw [hstep] at hE
      exact ih msg' m bc' mode' r (hmono hbc) hE
    · rw [hstep] at hE
      simp only [Except.ok.injEq, Prod.mk.injEq] at hE
      exact hE.1 ▸ hlast hbc
    · rw [hstep] at hE
      exact absurd hE (by simp)

theorem pm_no_interrupt (es : List ReadEvent) :
    ∀ (msg : List Nat) (bc : Int) (mode : BodyMode) (k : ErrKind),
    parse_messageGo es msg bc mode = .error k → k ≠ ErrKind.interrupted := by
  induction es with
  | nil =>
    intro msg bc mode k hE
    simp only [parse_messageGo, Except.error.injEq] at hE
    subst hE; simp
  | cons e rest ih =>
    intro msg bc mode k hE
    rcases pm_step e msg bc mode with ⟨msg', bc', mode', _, hstep⟩ |
      ⟨m', _, _, hstep⟩ | ⟨k', hk', hstep⟩
    · rw [hstep] at hE
      exact ih msg' bc' mode' k hE
    · rw [hstep] at hE
      exact absurd hE (by simp)
    · rw [hstep] at hE
      simp only [Except.error.injEq] at hE
      exact hE ▸ hk'

theorem pm_strip (es : List ReadEvent) :
    ∀ (msg : List Nat) (bc : Int) (mode : BodyMode),
    parse_messageGo (stripInterrupts es) msg bc mode =
      stripResult (parse_messageGo es msg bc mode) := by
  induction es with
  | nil => intro msg bc mode; simp [stripInterrupts, parse_messageGo, stripResult]
  | cons e rest ih =>
    intro msg bc mode
    cases e with
    | ioError k =>
      by_cases hk : k = ErrKind.interrupted
      · have hfil : stripInterrupts (ReadEvent.ioError k :: rest) = stripInterrupts rest := by
          simp [stripInterrupts, hk]
        rw [hfil]
        have heq : parse_messageGo (ReadEvent.ioError k :: rest) msg bc mode =
            parse_messageGo rest msg bc mode := by
          simp [parse_messageGo, hk]
        rw [heq]
        exact ih msg bc mode
      · have hfil : stripInterrupts (ReadEvent.ioError k :: rest) =
            ReadEvent.ioError k :: stripInterrupts rest := by
          simp [stripInterrupts, hk]
        rw [hfil]
        have heq : ∀ r', parse_messageGo (ReadEvent.ioError k :: r') msg bc mode =
            .error k := by
          intro r'; simp [parse_messageGo, hk]
        rw [heq, heq, stripResult]
    | byte b =>
      have hfil : stripInterrupts (ReadEvent.byte b :: rest) =
          ReadEvent.byte b :: stripInterrupts rest := by
        simp [stripInterrupts]
      rw [hfil]
      rcases pm_step (ReadEvent.byte b) msg bc mode with ⟨msg', bc', mode', _, hstep⟩ |
        ⟨m', _, _, hstep⟩ | ⟨k', _, hstep⟩
      · rw [hstep, hstep]
        exact ih msg' bc' mode'
      · rw [hstep, hstep, stripResult]
      · rw [hstep, hstep, stripResult]

theorem ph_strip (es : List ReadEvent) :
    ∀ (acc : List Nat),
    parse_headers (stripInterrupts es) acc = stripResult (parse_headers es acc) := by
  induction es with
  | nil => intro acc; simp [stripInterrupts, parse_headers, stripResult]
  | cons e rest ih =>
    intro acc
    cases e with
    | ioError k =>
      by_cases hk : k = ErrKind.interrupted
      · have hfil : stripInterrupts (ReadEvent.ioError k :: rest) = stripInterrupts rest := by
          simp [stripInterrupts, hk]
        have heq : parse_headers (ReadEvent.ioError k :: rest) acc = parse_headers rest acc := by
          simp [parse_headers, hk]
        rw [hfil, heq]
        exact ih acc
      · have hfil : stripInterrupts (ReadEvent.ioError k :: rest) =
            ReadEvent.ioError k :: stripInterrupts rest := by
          simp [stripInterrupts, hk]
        have heq : ∀ r', parse_headers (ReadEvent.ioError k :: r') acc = .error k := by
          intro r'; simp [parse_headers, hk]
        rw [hfil, heq, heq, stripResult]
    | byte b =>
      have hfil : stripInterrupts (ReadEvent.byte b :: rest) =
          ReadEvent.byte b :: stripInterrupts rest := by
        simp [stripInterrupts]
      rw [hfil]
      by_cases hc : 4 ≤ (acc ++ [b]).length ∧
          (acc ++ [b]).drop ((acc ++ [b]).length - 4) = [13, 10, 13, 10]
      · have heq : ∀ r', parse_headers (ReadEvent.byte b :: r') acc = .ok (acc ++ [b], r') := by
          intro r'; simp only [parse_headers]; rw [if_pos hc]
        rw [heq, heq, stripResult]
      · have heq : ∀ r', parse_headers (ReadEvent.byte b :: r') acc =
            parse_headers r' (acc ++ [b]) := by
          intro r'; simp only [parse_headers]; rw [if_neg hc]
        rw [heq, heq]
        exact ih (acc ++ [b])

theorem parse_headers_term (es : List ReadEvent) :
    ∀ (acc h : List Nat) (r : List ReadEvent),
    (∀ pre suf : List Nat, acc ≠ pre ++ blankTerm ++ suf) →
    parse_headers es acc = .ok (h, r) →
    (∃ pre, h = pre ++ blankTerm) ∧
      (∀ pre suf, h = pre ++ blankTerm ++ suf → suf = []) := by
  induction es with
  | nil => intro acc h r _ hE; simp [parse_headers] at hE
  | cons e rest ih =>
    intro acc h r hacc hE
    cases e with
    | ioError k =>
      simp only [parse_headers] at hE
      by_cases hk : k = ErrKind.interrupted
      · rw [if_pos hk] at hE
        exact ih acc h r hacc hE
      · rw [if_neg hk] at hE
        exact absurd hE (by simp)
    | byte b =>
      simp only [parse_headers] at hE
      by_cases hc : 4 ≤ (acc ++ [b]).length ∧
          (acc ++ [b]).drop ((acc ++ [b]).length - 4) = [13, 10, 13, 10]
      · rw [if_pos hc] at hE
        simp only [Except.ok.injEq, Prod.mk.injEq] at hE
        obtain ⟨h1, _⟩ := hE
        subst h1
        constructor
        · refine ⟨(acc ++ [b]).take ((acc ++ [b]).length - 4), ?_⟩
          conv_lhs => rw [← List.take_append_drop ((acc ++ [b]).length - 4) (acc ++ [b])]
          rw [hc.2]
          rfl
        · intro pre suf hdec
          rcases List.eq_nil_or_concat suf with hsuf | ⟨s, x, hsuf⟩
          · exact hsuf
          · exfalso
            subst hsuf
            have h3 : acc ++ [b] = (pre ++ blankTerm ++ s) ++ [x] := by
              rw [hdec]; simp [List.concat_eq_append]
            exact hacc pre s (appendSingleton_inj h3).1
      · rw [if_neg hc] at hE
        apply ih (acc ++ [b]) h r _ hE
        intro pre suf hdec
        rcases List.eq_nil_or_concat suf with hsuf | ⟨s, x, hsuf⟩
        · subst hsuf
          rw [List.append_nil] at hdec
          apply hc
          constructor
          · rw [hdec]; simp [blankTerm]
          · rw [hdec]
            have hlen : (pre ++ blankTerm).length - 4 = pre.length := by simp [blankTerm]
            rw [hlen]
            exact List.drop_left pre blankTerm
        · subst hsuf
          have h3 : acc ++ [b] = (pre ++ blankTerm ++ s) ++ [x] := by
            rw [hdec]; simp [List.concat_eq_append]
          exact hacc pre s (appendSingleton_inj h3).1

theorem pm_quoted_eq (es : List ReadEvent) :
    ∀ (msg : List Nat) (bc : Int) (esc : Bool),
    parse_messageGo es msg bc (.quoted esc) =
      (match parse_string es msg esc with
       | .ok (m, r) =>
         if bc > 0 then parse_messageGo r m bc .scan
         else if jsonValid m = true then .ok (m, r)
         else .error .invalidData
       | .error k => .error k) := by
  induction es with
  | nil => intro msg bc esc; simp [parse_messageGo, parse_string]
  | cons e rest ih =>
    intro msg bc esc
    cases e with
    | ioError k =>
      by_cases hk : k = ErrKind.interrupted
      · have h1 : parse_messageGo (ReadEvent.ioError k :: rest) msg bc (.quoted esc) =
            parse_messageGo rest msg bc (.quoted esc) := by
          simp [parse_messageGo, hk]
        have h2 : parse_string (ReadEvent.ioError k :: rest) msg esc =
            parse_string rest msg esc := by
          simp [parse_string, hk]
        rw [h1, h2]
        exact ih msg bc esc
      · have h1 : parse_messageGo (ReadEvent.ioError k :: rest) msg bc (.quoted esc) =
            .error k := by
          simp [parse_messageGo, hk]
        have h2 : parse_string (ReadEvent.ioError k :: rest) msg esc = .error k := by
          simp [parse_string, hk]
        rw [h1, h2]
    | byte b =>
      cases esc with
      | true =>
        have h1 : parse_messageGo (ReadEvent.byte b :: rest) msg bc (.quoted true) =
            parse_messageGo rest (msg ++ [b]) bc (.quoted false) := by
          simp [parse_messageGo]
        have h2 : parse_string (ReadEvent.byte b :: rest) msg true =
            parse_string rest (msg ++ [b]) false := by
          simp [parse_string]
        rw [h1, h2]
        exact ih (msg ++ [b]) bc false
      | false =>
        by_cases h92 : b = 92
        · have h1 : parse_messageGo (ReadEvent.byte b :: rest) msg bc (.quoted false) =
              parse_messageGo rest (msg ++ [b]) bc (.quoted true) := by
            simp [parse_messageGo, h92]
          have h2 : parse_string (ReadEvent.byte b :: rest) msg false =
              parse_string rest (msg ++ [b]) true := by
            simp [parse_string, h92]
          rw [h1, h2]
          exact ih (msg ++ [b]) bc true
        · by_cases h34 : b = 34
          · have h1 : parse_messageGo (ReadEvent.byte b :: rest) msg bc (.quoted false) =
                (if bc > 0 then parse_messageGo rest (msg ++ [b]) bc .scan
                 else if jsonValid (msg ++ [b]) = true then .ok (msg ++ [b], rest)
                 else .error .invalidData) := by
              simp [parse_messageGo, h92, h34]
            have h2 : parse_string (ReadEvent.byte b :: rest) msg false =
                .ok (msg ++ [b], rest) := by
              simp [parse_string, h92, h34]
            rw [h1, h2]
          · have h1 : parse_messageGo (ReadEvent.byte b :: rest) msg bc (.quoted false) =
                parse_messageGo rest (msg ++ [b]) bc (.quoted false) := by
              simp [parse_messageGo, h92, h34]
            have h2 : parse_string (ReadEvent.byte b :: rest) msg false =
                parse_string rest (msg ++ [b]) false := by
              simp [parse_string, h92, h34]
            rw [h1, h2]
            exact ih (msg ++ [b]) bc false

theorem rm_char (es : List ReadEvent) (f : LspMessage) (r : List ReadEvent) :
    read_message es = .ok (f, r) ↔
      ∃ rest1, parse_headers es [] = .ok (f.headers, rest1) ∧
        parse_messageGo rest1 [] 0 .scan = .ok (f.message, r) := by
  unfold read_message parse_message
  constructor
  · intro hE
    split at hE
    · simp at hE
    · rename_i hs rest1 hph
      split at hE
      · simp at hE
      · rename_i m r2 hpm
        simp only [Except.ok.injEq, Prod.mk.injEq] at hE
        obtain ⟨h1, h2⟩ := hE
        subst h2
        refine ⟨rest1, ?_, ?_⟩
        · rw [← h1]; exact hph
        · rw [← h1]; exact hpm
  · rintro ⟨rest1, h1, h2⟩
    simp [h1, h2]

theorem rm_err_char (es : List ReadEvent) (k : ErrKind) :
    read_message es = .error k ↔
      parse_headers es [] = .error k ∨
        ∃ hs rest1, parse_headers es [] = .ok (hs, rest1) ∧
          parse_messageGo rest1 [] 0 .scan = .error k := by
  unfold read_message parse_message
  constructor
  · intro hE
    split at hE
    · rename_i k' hph
      simp only [Except.error.injEq] at hE
      subst hE
      exact Or.inl hph
    · rename_i hs rest1 hph
      split at hE
      · rename_i k' hpm
        simp only [Except.error.injEq] at hE
        subst hE
        exact Or.inr ⟨hs, rest1, hph, hpm⟩
      · simp at hE
  · intro hE
    rcases hE with h1 | ⟨hs, rest1, h1, h2⟩
    · simp [h1]
    · simp [h1, h2]

theorem rm_ok_ext (es es' : List ReadEvent) (f : LspMessage) (r : List ReadEvent)
    (hE : read_message es = .ok (f, r)) :
    read_message (es ++ es') = .ok (f, r ++ es') := by
  obtain ⟨rest1, h1, h2⟩ := (rm_char es f r).1 hE
  exact (rm_char (es ++ es') f (r ++ es')).2
    ⟨rest1 ++ es', parse_headers_ok_ext es es' [] f.headers rest1 h1,
      pm_ok_ext rest1 es' [] f.message 0 .scan r h2⟩

theorem rm_err_ext (es es' : List ReadEvent) (k : ErrKind)
    (hE : read_message es = .error k) (hk : k ≠ ErrKind.unexpectedEof) :
    read_message (es ++ es') = .error k := by
  rcases (rm_err_char es k).1 hE with h1 | ⟨hs, rest1, h1, h2⟩
  · exact (rm_err_char (es ++ es') k).2 (Or.inl (parse_headers_err_ext es es' [] k h1 hk))
  · exact (rm_err_char (es ++ es') k).2
      (Or.inr ⟨hs, rest1 ++ es', parse_headers_ok_ext es es' [] hs rest1 h1,
        pm_err_ext rest1 es' [] 0 .scan k h2 hk⟩)

theorem rm_no_interrupt (es : List ReadEvent) (k : ErrKind)
    (hE : read_message es = .error k) : k ≠ ErrKind.interrupted := by
  rcases (rm_err_char es k).1 hE with h1 | ⟨hs, rest1, h1, h2⟩
  · exact parse_headers_no_interrupt es [] k h1
  · exact pm_no_interrupt rest1 [] 0 .scan k h2

theorem rm_strip_ok (es : List ReadEvent) (f : LspMessage) (r : List ReadEvent)
    (hE : read_message es = .ok (f, r)) :
    read_message (stripInterrupts es) = .ok (f, stripInterrupts r) := by
  obtain ⟨rest1, h1, h2⟩ := (rm_char es f r).1 hE
  have h1' : parse_headers (stripInterrupts es) [] =
      .ok (f.headers, stripInterrupts rest1) := by
    rw [ph_strip es [], h1]; rfl
  have h2' : parse_messageGo (stripInterrupts rest1) [] 0 .scan =
      .ok (f.message, stripInterrupts r) := by
    rw [pm_strip rest1 [] 0 .scan, h2]; rfl
  exact (rm_char (stripInterrupts es) f (stripInterrupts r)).2
    ⟨stripInterrupts rest1, h1', h2'⟩

theorem rm_strip_err (es : List ReadEvent) (k : ErrKind)
    (hE : read_message es = .error k) :
    read_message (stripInterrupts es) = .error k := by
  rcases (rm_err_char es k).1 hE with h1 | ⟨hs, rest1, h1, h2⟩
  · refine (rm_err_char (stripInterrupts es) k).2 (Or.inl ?_)
    rw [ph_strip es [], h1]; rfl
  · refine (rm_err_char (stripInterrupts es) k).2
      (Or.inr ⟨hs, stripInterrupts rest1, ?_, ?_⟩)
    · rw [ph_strip es [], h1]; rfl
    · rw [pm_strip rest1 [] 0 .scan, h2]; rfl

theorem runFrames_strip (n : Nat) : ∀ es,
    runFrames n (stripInterrupts es) = runFrames n es := by
  induction n with
  | zero => intro es; rfl
  | succ n ih =>
    intro es
    cases hE : read_message es with
    | error k =>
      have hs := rm_strip_err es k hE
      simp [runFrames, hE, hs]
    | ok p =>
      obtain ⟨f, r⟩ := p
      have hs := rm_strip_ok es f r hE
      simp [runFrames, hE, hs, ih r]

theorem runFrames_no_interrupt (n : Nat) : ∀ es,
    (runFrames n es).2 ≠ some ErrKind.interrupted := by
  induction n with
  | zero => intro es; simp [runFrames]
  | succ n ih =>
    intro es
    cases hE : read_message es with
    | error k =>
      simpa [runFrames, hE] using rm_no_interrupt es k hE
    | ok p =>
      obtain ⟨f, r⟩ := p
      simpa [runFrames, hE] using ih r

theorem findFrom_skip (fs : FsOracle) (pre : List (List String)) :
    ∀ (l : List (List String)),
    (∀ q, q ∈ pre → fs.pathExists (activePath q) = false) →
    findFrom fs (pre ++ l) = findFrom fs l := by
  induction pre with
  | nil => intro l _; rfl
  | cons q pre ih =>
    intro l hpre
    have hq := hpre q (by simp)
    have h1 : findFrom fs ((q :: pre) ++ l) = findFrom fs (pre ++ l) := by
      simp [findFrom, hq]
    rw [h1]
    exact ih l (fun q' hq' => hpre q' (by simp [hq']))

/-! ### The claims -/

/-- C1: for the byte stream holding the two sample messages back to back,
two successive `read_message` calls return exactly the two frames, in
order, with the stated headers and bodies — independently of how the
stream is partitioned into chunks, since the per-byte iterator delivers
the flattening of the chunks. -/
theorem claim_c1 (chunks : List (List Nat)) (hjoin : chunks.flatten = msgStream) :
    read_message (byteEvents chunks.flatten) =
        .ok (⟨hdr1, body1⟩, byteEvents (hdr2 ++ body2)) ∧
      read_message (byteEvents (hdr2 ++ body2)) = .ok (⟨hdr2, body2⟩, []) := by
  rw [hjoin]
  exact ⟨by decide, by decide⟩

theorem claim_c1_witness :
    (msgStream.map (fun b => [b])).flatten = msgStream ∧
      (read_message (byteEvents (msgStream.map (fun b => [b])).flatten) =
          .ok (⟨hdr1, body1⟩, byteEvents (hdr2 ++ body2)) ∧
        read_message (byteEvents (hdr2 ++ body2)) = .ok (⟨hdr2, body2⟩, [])) :=
  ⟨by decide, claim_c1 (msgStream.map (fun b => [b])) (by decide)⟩

/-- C2 (counterexample): a body that contains no open-brace at all — the
quoted string `"x"` — is validated at its closing quote and emitted as a
Frame, refuting the claim that validation waits for at least one
open-brace and that such bodies yield neither a Frame nor an error. -/
theorem claim_c2_counterexample :
    read_message (byteEvents [13, 10, 13, 10, 34, 120, 34]) =
        .ok (⟨[13, 10, 13, 10], [34, 120, 34]⟩, []) ∧
      123 ∉ [34, 120, 34] :=
  ⟨by decide, by decide⟩

/-- C2 (amended): during BodyScan, validation of the accumulated body is
attempted whenever the depth counter is not positive immediately after an
open-brace, close-brace, or quote byte is classified (a quoted section
being consumed to its closing quote first) — with no requirement that an
open-brace has been seen.  In particular, at depth zero, a quote byte
leads directly to the quoted section being consumed and the body
validated: a Frame on success, `InvalidData` on failure. -/
theorem claim_c2 (rest : List ReadEvent) (msg m : List Nat) (r : List ReadEvent)
    (hps : parse_string rest (msg ++ [34]) false = .ok (m, r)) :
    parse_messageGo (.byte 34 :: rest) msg 0 .scan =
      (if jsonValid m = true then .ok (m, r) else .error .invalidData) := by
  have h1 : parse_messageGo (ReadEvent.byte 34 :: rest) msg 0 .scan =
      parse_messageGo rest (msg ++ [34]) 0 (.quoted false) := by
    simp [parse_messageGo]
  rw [h1, pm_quoted_eq rest (msg ++ [34]) 0 false]
  simp [hps]

theorem claim_c2_witness :
    parse_string (byteEvents [120, 34]) ([] ++ [34]) false = .ok ([34, 120, 34], []) ∧
      parse_messageGo (.byte 34 :: byteEvents [120, 34]) [] 0 .scan =
        (if jsonValid [34, 120, 34] = true then .ok ([34, 120, 34], ([] : List ReadEvent))
         else .error .invalidData) :=
  ⟨by decide, claim_c2 (byteEvents [120, 34]) [] [34, 120, 34] [] (by decide)⟩

/-- C3: every frame returned by `read_message` has a body that validates
as a complete JSON value, and a header block that ends with the blank-line
terminator `\r\n\r\n`, which occurs in it exactly once, as its suffix. -/
theorem claim_c3 (es : List ReadEvent) (f : LspMessage) (r : List ReadEvent)
    (hE : read_message es = .ok (f, r)) :
    jsonValid f.message = true ∧
      (∃ pre, f.headers = pre ++ blankTerm) ∧
      (∀ pre suf, f.headers = pre ++ blankTerm ++ suf → suf = []) := by
  obtain ⟨rest1, h1, h2⟩ := (rm_char es f r).1 hE
  have hinit : ∀ pre suf : List Nat, ([] : List Nat) ≠ pre ++ blankTerm ++ suf := by
    intro pre suf h
    have := congrArg List.length h
    simp [blankTerm] at this
    omega
  have hterm := parse_headers_term es [] f.headers rest1 hinit h1
  exact ⟨pm_ok_valid rest1 [] f.message 0 .scan r h2, hterm.1, hterm.2⟩

theorem claim_c3_witness :
    jsonValid (LspMessage.mk hdr1 body1).message = true ∧
      (∃ pre, (LspMessage.mk hdr1 body1).headers = pre ++ blankTerm) ∧
      (∀ pre suf, (LspMessage.mk hdr1 body1).headers = pre ++ blankTerm ++ suf →
        suf = []) :=
  claim_c3 (byteEvents (hdr1 ++ body1)) ⟨hdr1, body1⟩ [] (by decide)

/-- C4: a close-brace inside a quoted section does not change the depth
counter: a header block followed by the nine-byte body whose value holds
a brace inside a string is read as exactly one frame carrying the full
nine-byte body, with nothing left over. -/
theorem claim_c4 (s : List Nat) (h : List Nat)
    (hph : parse_headers (byteEvents s ++ byteEvents body9) [] =
      .ok (h, byteEvents body9)) :
    read_message (byteEvents s ++ byteEvents body9) = .ok (⟨h, body9⟩, []) := by
  refine (rm_char _ ⟨h, body9⟩ []).2 ⟨byteEvents body9, hph, ?_⟩
  show parse_messageGo (byteEvents body9) [] 0 BodyMode.scan = .ok (body9, [])
  decide

theorem claim_c4_witness :
    parse_headers (byteEvents [72, 13, 10, 13, 10] ++ byteEvents body9) [] =
        .ok ([72, 13, 10, 13, 10], byteEvents body9) ∧
      read_message (byteEvents [72, 13, 10, 13, 10] ++ byteEvents body9) =
        .ok (⟨[72, 13, 10, 13, 10], body9⟩, []) :=
  ⟨by decide, claim_c4 [72, 13, 10, 13, 10] [72, 13, 10, 13, 10] (by decide)⟩

/-- C5: if a byte stream `s` is a strict prefix of a stream `s ++ t` from
which `read_message` assembles a frame whose boundary lies strictly inside
`t` (so `s` ends partway through that frame — inside the header block, or
inside a body with unmatched braces or an open quoted section), then
reading `s` alone returns the `UnexpectedEof` error, and in particular
never a frame. -/
theorem claim_c5 (s t : List Nat) (f : LspMessage) (rest : List ReadEvent)
    (hok : read_message (byteEvents (s ++ t)) = .ok (f, rest))
    (hlen : rest.length < t.length) :
    read_message (byteEvents s) = .error .unexpectedEof := by
  have hsplit : byteEvents (s ++ t) = byteEvents s ++ byteEvents t := by
    simp [byteEvents]
  cases hE : read_message (byteEvents s) with
  | ok p =>
    obtain ⟨f', r'⟩ := p
    exfalso
    have hext := rm_ok_ext (byteEvents s) (byteEvents t) f' r' hE
    rw [← hsplit, hok] at hext
    simp only [Except.ok.injEq, Prod.mk.injEq] at hext
    obtain ⟨_, h2⟩ := hext
    have hlen2 : rest.length = r'.length + t.length := by
      rw [h2]; simp [byteEvents]
    omega
  | error k =>
    by_cases hk : k = ErrKind.unexpectedEof
    · rw [hk]
    · exfalso
      have hext := rm_err_ext (byteEvents s) (byteEvents t) k hE hk
      rw [← hsplit, hok] at hext
      simp at hext

theorem claim_c5_witness :
    read_message (byteEvents (hdr1 ++ body1)) = .ok (⟨hdr1, body1⟩, []) ∧
      ([] : List ReadEvent).length < body1.length ∧
      read_message (byteEvents hdr1) = .error .unexpectedEof :=
  ⟨by decide, by decide,
    claim_c5 hdr1 body1 ⟨hdr1, body1⟩ [] (by decide) (by decide)⟩

/-- C6: over any event stream, repeated `read_message` calls produce
exactly the same frame sequence and final error as over the stream with
all transient-interruption events removed, and the final error is never
`Interrupted`. -/
theorem claim_c6 (n : Nat) (es : List ReadEvent) :
    runFrames n (stripInterrupts es) = runFrames n es ∧
      (runFrames n es).2 ≠ some ErrKind.interrupted :=
  ⟨runFrames_strip n es, runFrames_no_interrupt n es⟩

/-- C7: `Conn::connect` dispatches on the URI scheme: for a `tcp` scheme
the address is resolved and exactly one network-socket connection is
attempted at the first resolved address; for the local-socket scheme
exactly one domain-socket connection is attempted at the URI's path; for
any other scheme the result is the invalid-address error and no
connection attempt is made. -/
theorem claim_c7 (parseUrl : String → Option ParsedUrl) (o : NetOracle) (s : String)
    (u : ParsedUrl) (hp : parseUrl s = some u) :
    (u.scheme = "tcp" → ∀ addrs a, o.resolveAddrs u = .ok addrs →
      addrs.head? = some a → (Conn.connect parseUrl o s).2 = [.tcp a]) ∧
    (u.scheme = "local" → (Conn.connect parseUrl o s).2 = [.unix u.path]) ∧
    (u.scheme ≠ "tcp" → u.scheme ≠ "local" →
      Conn.connect parseUrl o s = (.error .invalidInput, [])) := by
  refine ⟨?_, ?_, ?_⟩
  · intro htcp addrs a hres hhead
    cases htc : o.tcpConnect a with
    | ok v => simp [Conn.connect, hp, htcp, hres, hhead, htc]
    | error k => simp [Conn.connect, hp, htcp, hres, hhead, htc]
  · intro hloc
    have hn : ¬u.scheme = "tcp" := by rw [hloc]; decide
    cases huc : o.unixConnect u.path with
    | ok v => simp [Conn.connect, hp, hn, hloc, huc]
    | error k => simp [Conn.connect, hp, hn, hloc, huc]
  · intro h1 h2
    simp [Conn.connect, hp, h1, h2]

theorem claim_c7_witness :
    Conn.connect (fun _ => some ⟨"ftp", "host"⟩) trivialNetOracle "ftp://host" =
      (.error .invalidInput, []) :=
  (claim_c7 (fun _ => some ⟨"ftp", "host"⟩) trivialNetOracle "ftp://host"
    ⟨"ftp", "host"⟩ rfl).2.2 (by decide) (by decide)

/-- C8: `find_sbt_server_addr` walks the ancestors of the working
directory looking for `project/target/active.json`; with no ancestor
holding the file it fails with `NotFound`; at the first ancestor holding
it, both recognized JSON shapes return their `uri` field, and contents of
any other shape fail with `InvalidData`. -/
theorem claim_c8 (fs : FsOracle) :
    ((∀ p, p ∈ fs.ancestors → fs.pathExists (activePath p) = false) →
      find_sbt_server_addr fs = .error .notFound) ∧
    (∀ pre p suf, fs.ancestors = pre ++ p :: suf →
      (∀ q, q ∈ pre → fs.pathExists (activePath q) = false) →
      fs.pathExists (activePath p) = true →
      ((∀ u, fs.readActive (activePath p) = .ok (some (.onlyUri u)) →
          find_sbt_server_addr fs = .ok u) ∧
       (∀ u a b, fs.readActive (activePath p) = .ok (some (.withToken u a b)) →
          find_sbt_server_addr fs = .ok u) ∧
       (fs.readActive (activePath p) = .ok none →
          find_sbt_server_addr fs = .error .invalidData))) := by
  constructor
  · intro hall
    have h1 := findFrom_skip fs fs.ancestors [] hall
    rw [List.append_nil] at h1
    unfold find_sbt_server_addr
    rw [h1]
    rfl
  · intro pre p suf hanc hpre hex
    have h1 : find_sbt_server_addr fs = findFrom fs (p :: suf) := by
      unfold find_sbt_server_addr
      rw [hanc]
      exact findFrom_skip fs pre (p :: suf) hpre
    have h2 : find_sbt_server_addr fs =
        (parse_active fs (activePath p)).map Active.to_uri := by
      rw [h1]
      simp [findFrom, hex]
    refine ⟨?_, ?_, ?_⟩
    · intro u hread
      rw [h2]
      simp [parse_active, hread, Except.map, Active.to_uri]
    · intro u a b hread
      rw [h2]
      simp [parse_active, hread, Except.map, Active.to_uri]
    · intro hread
      rw [h2]
      simp [parse_active, hread, Except.map]

theorem claim_c8_witness :
    find_sbt_server_addr sampleFs = .ok "tcp://127.0.0.1:1" :=
  ((claim_c8 sampleFs).2 [] ["a"] [[]] rfl (by simp) (by decide)).1
    "tcp://127.0.0.1:1" (by decide)

/-- C10: every frame returned by `read_message` has a nonempty body whose
final byte is a close-brace or a quote: validation, and hence frame
emission, is triggered only right after an open-brace, close-brace, or
quote byte is classified, so a self-delimiting body such as a bare number
or a bare literal is never emitted as a frame. -/
theorem claim_c10 (es : List ReadEvent) (f : LspMessage) (r : List ReadEvent)
    (hE : read_message es = .ok (f, r)) :
    f.message.getLast? = some 125 ∨ f.message.getLast? = some 34 := by
  obtain ⟨rest1, h1, h2⟩ := (rm_char es f r).1 hE
  exact pm_ok_last rest1 [] f.message 0 .scan r (by norm_num) h2

theorem claim_c10_witness :
    (LspMessage.mk hdr2 body2).message.getLast? = some 125 ∨
      (LspMessage.mk hdr2 body2).message.getLast? = some 34 :=
  claim_c10 (byteEvents (hdr2 ++ body2)) ⟨hdr2, body2⟩ [] (by decide)
